import Mathlib

/-!
Verification of `cvDisplacementMapFilter/main.cpp`.

We shallowly embed the two image operations of the program:

* `overlayImage` (the Compositor): copies a 4-channel foreground over a
  3-channel background with per-pixel alpha blending, with early exit
  once the foreground bounds are exceeded;
* `displacementMapFilter` (the Displacement Remapper): uses a map image's
  channel values to displace the pixels of a target image, together with
  its helper `getComponent` (the Channel Selector).

Images (`cv::Mat`) are modelled by a structure carrying the dimensions,
the channel count, the OpenCV type tag, and a total pixel function
`px : row → col → channel → value`; pixel values are natural numbers
(`unsigned char` in the source, all arithmetic on them is exact here).
C++ `int` arithmetic is modelled on `ℤ`; the C++ `/` on `int` truncates
toward zero, which is `Int.tdiv` (not `Int.ediv`).  The `double`
arithmetic of the alpha blend is modelled on `ℚ` with truncation toward
zero on the store back into `unsigned char`; on the values reached in
the claims (opacity exactly 0 or exactly 1) the rational model agrees
with IEEE doubles, whose arithmetic is exact there.
-/

namespace CvDisplacement

/-- Model of a `cv::Mat`: dimensions, channel count, OpenCV type tag and a
total pixel function (row, column, channel ↦ 8-bit value). -/
structure Img where
  rows : ℤ
  cols : ℤ
  channels : ℕ
  mtype : ℤ
  px : ℤ → ℤ → ℕ → ℕ

/-- The OpenCV type tag `CV_8UC4` = `CV_MAKETYPE(CV_8U, 4)` = `(4-1) << 3`. -/
def CV_8UC4 : ℤ := 24

/-- Channel count encoded in an OpenCV type tag: `(type >> 3) + 1`
(for the single-byte depths used here). -/
def channelsOfType (t : ℤ) : ℕ := (Int.tdiv t 8 + 1).toNat

/-- `getComponent` (main.cpp:54-73): switch on the selector; cases 0, 1, 2
return the Blue, Green, Red component of the `cv::Vec3b` pixel; the default
branch returns 0. -/
def getComponent (bgr_pixel : ℕ → ℕ) (bgr_component : ℤ) : ℕ :=
  if bgr_component = 0 then bgr_pixel 0
  else if bgr_component = 1 then bgr_pixel 1
  else if bgr_component = 2 then bgr_pixel 2
  else 0

/-- `getComponent`'s default branch prints an error message
(main.cpp:67-69); this flag records whether that branch is taken. -/
def getComponentLogsError (bgr_component : ℤ) : Bool :=
  ¬(bgr_component = 0 ∨ bgr_component = 1 ∨ bgr_component = 2)

/-- The per-axis displacement amount computed at main.cpp:109/113:
`(component - 128) * scale / 256` in C++ `int` arithmetic
(division truncating toward zero). -/
def dispOffset (comp s : ℤ) : ℤ := Int.tdiv ((comp - 128) * s) 256

/-- The two sequential clamps of main.cpp:110-111 (and 114-115):
`if (v < 0) v = 0; if (v >= bound) v = bound;`. -/
def clampSeq (v bound : ℤ) : ℤ :=
  let v1 := if v < 0 then 0 else v
  if bound ≤ v1 then bound else v1

/-- The source row index `dx` read by the Remapper at output pixel (x, y)
(main.cpp:109-111), clamps included. -/
def dispDX (map : Img) (componentX scaleX rows : ℤ) (x y : ℤ) : ℤ :=
  clampSeq (x + dispOffset (getComponent (fun c => map.px x y c) componentX) scaleX) rows

/-- The source column index `dy` read by the Remapper at output pixel (x, y)
(main.cpp:113-115), clamps included. -/
def dispDY (map : Img) (componentY scaleY cols : ℤ) (x y : ℤ) : ℤ :=
  clampSeq (y + dispOffset (getComponent (fun c => map.px x y c) componentY) scaleY) cols

/-- `displacementMapFilter` (main.cpp:85-119).  The two validation guards
return without touching `output`; on success `output.create` allocates a
`target.rows × target.cols` matrix of the target's type (its contents
before the loop are unspecified; the model uses 0 for the coordinates the
loop never writes), and the loop sets every pixel (x, y) from
`target.at(dx, dy)`. -/
def displacementMapFilter (map target : Img) (componentX componentY scaleX scaleY : ℤ)
    (output : Img) : Img :=
  if componentX < 0 ∨ componentX > 2 ∨ componentY < 0 ∨ componentY > 2 then output
  else if target.cols ≠ map.cols ∨ target.rows ≠ map.rows ∨ target.mtype ≠ CV_8UC4 then output
  else
    { rows := target.rows
      cols := target.cols
      channels := channelsOfType target.mtype
      mtype := target.mtype
      px := fun x y c =>
        if 0 ≤ x ∧ x < target.rows ∧ 0 ≤ y ∧ y < target.cols ∧ c < 4 then
          target.px (dispDX map componentX scaleX target.rows x y)
                    (dispDY map componentY scaleY target.cols x y) c
        else 0 }

/-- Whether `displacementMapFilter` prints one of its two error messages
(main.cpp:89, main.cpp:95), following the source's control flow. -/
def displacementMapFilterLogsError (map target : Img) (componentX componentY : ℤ) : Bool :=
  if componentX < 0 ∨ componentX > 2 ∨ componentY < 0 ∨ componentY > 2 then true
  else if target.cols ≠ map.cols ∨ target.rows ≠ map.rows ∨ target.mtype ≠ CV_8UC4 then true
  else false

/-! ### The Compositor: `overlayImage` (main.cpp:15-46)

The output starts as a copy of the background; the nested scan then blends
foreground pixels over it.  Both loops are embedded as recursive functions
whose early return models the `break` statements at main.cpp:25 and
main.cpp:33. -/

/-- A mutable pixel buffer: row, column, channel ↦ value. -/
abbrev PxFun := ℤ → ℤ → ℕ → ℕ

/-- The opacity computed at main.cpp:36 for background coordinate (y, x):
the foreground's alpha channel at (fY, fX) = (y − location.y, x − location.x),
divided by 255 (`double` arithmetic, exact for these values). -/
def opac (fg : Img) (loc : ℤ × ℤ) (y x : ℤ) : ℚ :=
  (fg.px (y - loc.2) (x - loc.1) 3 : ℚ) / 255

/-- The store at main.cpp:42: `backgroundPx * (1 - opacity) + foregroundPx *
opacity`, computed in `double` and truncated on assignment to `unsigned
char` (floor, as the value is non-negative for opacities in [0, 1]). -/
def blendPx (bgv fgv : ℕ) (op : ℚ) : ℕ := (⌊(bgv : ℚ) * (1 - op) + (fgv : ℚ) * op⌋).toNat

/-- The blended value written to channel `c` of output pixel (y, x). -/
def blendAt (bg fg : Img) (loc : ℤ × ℤ) (y x : ℤ) (c : ℕ) : ℕ :=
  blendPx (bg.px y x c) (fg.px (y - loc.2) (x - loc.1) c) (opac fg loc y x)

/-- The channel loop at main.cpp:39-43: if the opacity is positive it writes
all `output.channels()` blended channels of pixel (y, x) (the output is a
copy of the background, so `output.channels() = bg.channels`); otherwise it
writes nothing. -/
def writePixel (bg fg : Img) (loc : ℤ × ℤ) (out : PxFun) (y x : ℤ) : PxFun :=
  if 0 < opac fg loc y x then
    fun y' x' c' =>
      if y' = y ∧ x' = x ∧ c' < bg.channels then blendAt bg fg loc y x c' else out y' x' c'
  else out

/-- The inner column loop at main.cpp:28-44, starting at column `x`:
stops when `x` reaches `background.cols`, or early (the `break` at
main.cpp:33) when `fX = x − location.x` reaches `foreground.cols`. -/
def overlayCols (bg fg : Img) (loc : ℤ × ℤ) (y : ℤ) (x : ℤ) (out : PxFun) : PxFun :=
  if x < bg.cols then
    if fg.cols ≤ x - loc.1 then out
    else overlayCols bg fg loc y (x + 1) (writePixel bg fg loc out y x)
  else out
termination_by (bg.cols - x).toNat
decreasing_by omega

/-- The outer row loop at main.cpp:20-45, starting at row `y`: stops when
`y` reaches `background.rows`, or early (the `break` at main.cpp:25) when
`fY = y − location.y` reaches `foreground.rows`; each iteration runs the
column loop from `max location.x 0`. -/
def overlayRows (bg fg : Img) (loc : ℤ × ℤ) (y : ℤ) (out : PxFun) : PxFun :=
  if y < bg.rows then
    if fg.rows ≤ y - loc.2 then out
    else overlayRows bg fg loc (y + 1) (overlayCols bg fg loc y (max loc.1 0) out)
  else out
termination_by (bg.rows - y).toNat
decreasing_by omega

/-- `overlayImage` (main.cpp:15-46): the output is a copy of the background
(main.cpp:17) whose pixels are then overwritten by the row scan starting at
`max location.y 0`. -/
def overlayImage (bg fg : Img) (loc : ℤ × ℤ) : Img :=
  { rows := bg.rows
    cols := bg.cols
    channels := bg.channels
    mtype := bg.mtype
    px := overlayRows bg fg loc (max loc.2 0) bg.px }

/-- Modelled from the spec's words for the refinement claim: a full-bounds
iteration over all background coordinates with a per-pixel bounds check on
the foreground coordinate, blending exactly where the foreground pixel
exists (and its opacity is positive), keeping the background elsewhere. -/
def overlayFullPx (bg fg : Img) (loc : ℤ × ℤ) : PxFun := fun y x c =>
  if 0 ≤ y ∧ y < bg.rows ∧ 0 ≤ x ∧ x < bg.cols ∧
     0 ≤ y - loc.2 ∧ y - loc.2 < fg.rows ∧ 0 ≤ x - loc.1 ∧ x - loc.1 < fg.cols ∧
     0 < opac fg loc y x ∧ c < bg.channels
  then blendAt bg fg loc y x c
  else bg.px y x c

/-- Modelled from the spec's words: the Compositor as a full-bounds scan
with per-pixel foreground bounds checks. -/
def overlayImageFull (bg fg : Img) (loc : ℤ × ℤ) : Img :=
  { rows := bg.rows
    cols := bg.cols
    channels := bg.channels
    mtype := bg.mtype
    px := overlayFullPx bg fg loc }

/-- A 4×4 3-channel map whose pixels are 255 on every channel; feeding its
Red channel through the Remapper with scale 20 pushes boundary pixels past
the last valid index. -/
def mapBadClamp : Img := ⟨4, 4, 3, 16, fun _ _ _ => 255⟩

/-- A 4×4 BGRA target whose in-range pixels all hold 1 and whose
out-of-range coordinates hold the marker value 7. -/
def targetOOB : Img := ⟨4, 4, 4, CV_8UC4, fun x y _ => if 0 ≤ x ∧ x ≤ 3 ∧ 0 ≤ y ∧ y ≤ 3 then 1 else 7⟩

/-- A stand-in for the caller's not-yet-created `output` matrix. -/
def emptyImg : Img := ⟨0, 0, 0, 0, fun _ _ _ => 0⟩

/-- A 4×4 3-channel map image with all pixels zero. -/
def sampleMap3 : Img := ⟨4, 4, 3, 16, fun _ _ _ => 0⟩

/-- A 4×4 BGRA target image with distinct values per cell and channel. -/
def sampleTarget4 : Img := ⟨4, 4, 4, CV_8UC4, fun x y c => (x + 5 * y).toNat * 4 + c⟩

/-- A 4×4 3-channel map whose Red channel (index 2) is 128 everywhere. -/
def sampleMapRed128 : Img := ⟨4, 4, 3, 16, fun _ _ c => if c = 2 then 128 else 37⟩

/-- A previously filled output matrix, used to observe that failed calls
leave the output untouched. -/
def prevOutput : Img := ⟨1, 1, 1, 0, fun _ _ _ => 9⟩

/-- A 2×2 3-channel background with constant pixel value 100. -/
def bgSample : Img := ⟨2, 2, 3, 16, fun _ _ _ => 100⟩

/-- A 1×1 BGRA foreground with alpha 255 and color value 7. -/
def fgOpaque : Img := ⟨1, 1, 4, CV_8UC4, fun _ _ c => if c = 3 then 255 else 7⟩

/-- A 1×1 BGRA foreground with alpha 0 everywhere. -/
def fgTransparent : Img := ⟨1, 1, 4, CV_8UC4, fun _ _ _ => 0⟩

/-- Truncating division by 256 yields 0 whenever the absolute value of the
dividend is below 256. -/
lemma tdiv_256_eq_zero_of_natAbs_lt {a : ℤ} (h : a.natAbs < 256) : a.tdiv 256 = 0 := by
  have h2 : (a.tdiv 256).natAbs = 0 := by
    rw [Int.natAbs_tdiv]
    exact Nat.div_eq_of_lt h
  exact Int.natAbs_eq_zero.mp h2

/-- The clamp of main.cpp:110-111 leaves an already in-range index alone. -/
lemma clampSeq_eq_self {v bound : ℤ} (h0 : 0 ≤ v) (hb : v < bound) : clampSeq v bound = v := by
  simp only [clampSeq]
  split_ifs <;> omega

/-- Claim C9: because the Remapper divides by 256 with truncation, any axis
whose selected map component `c` and scale `s` satisfy `|c − 128| · |s| < 256`
gets displacement exactly 0; in particular with scale 20 every component
value in [116, 140] produces no displacement. -/
theorem dispOffset_dead_zone :
    (∀ c s : ℤ, (c - 128).natAbs * s.natAbs < 256 → dispOffset c s = 0) ∧
    (∀ c : ℤ, 116 ≤ c → c ≤ 140 → dispOffset c 20 = 0) := by
  constructor
  · intro c s h
    apply tdiv_256_eq_zero_of_natAbs_lt
    rw [Int.natAbs_mul]
    exact h
  · intro c h1 h2
    apply tdiv_256_eq_zero_of_natAbs_lt
    rw [Int.natAbs_mul]
    have h12 : (c - 128).natAbs ≤ 12 := by
      by_cases hc : 0 ≤ c - 128
      · have h := Int.natAbs_of_nonneg hc
        omega
      · have h' : 0 ≤ -(c - 128) := by omega
        have h := Int.natAbs_of_nonneg h'
        rw [Int.natAbs_neg] at h
        omega
    have h20 : (20 : ℤ).natAbs = 20 := rfl
    rw [h20]
    omega

/-- Witness for `dispOffset_dead_zone` at concrete inputs. -/
theorem dispOffset_dead_zone_witness :
    dispOffset 140 20 = 0 ∧ dispOffset 116 20 = 0 ∧ dispOffset 255 1 = 0 :=
  ⟨dispOffset_dead_zone.2 140 (by decide) (by decide),
   dispOffset_dead_zone.2 116 (by decide) (by decide),
   dispOffset_dead_zone.1 255 1 (by decide)⟩

/-- Claim C6: the Channel Selector returns the Blue, Green or Red component
for selectors 0, 1, 2 (without logging), and for any other selector logs an
error and returns the fallback value 0. -/
theorem getComponent_contract (p : ℕ → ℕ) (c : ℤ) :
    (c = 0 → getComponent p c = p 0 ∧ getComponentLogsError c = false) ∧
    (c = 1 → getComponent p c = p 1 ∧ getComponentLogsError c = false) ∧
    (c = 2 → getComponent p c = p 2 ∧ getComponentLogsError c = false) ∧
    (c ≠ 0 → c ≠ 1 → c ≠ 2 → getComponent p c = 0 ∧ getComponentLogsError c = true) := by
  refine ⟨?_, ?_, ?_, ?_⟩
  · rintro rfl; exact ⟨by simp [getComponent], by decide⟩
  · rintro rfl; exact ⟨by simp [getComponent], by decide⟩
  · rintro rfl; exact ⟨by simp [getComponent], by decide⟩
  · intro h0 h1 h2
    constructor
    · simp [getComponent, h0, h1, h2]
    · simp [getComponentLogsError, h0, h1, h2]

/-- Witness for `getComponent_contract`: selector 2 picks the Red component,
selector 7 logs and falls back to 0. -/
theorem getComponent_contract_witness :
    getComponent (fun i => 10 * i + 1) 2 = 21 ∧ getComponentLogsError 2 = false ∧
    getComponent (fun i => 10 * i + 1) 7 = 0 ∧ getComponentLogsError 7 = true := by
  have h2 := (getComponent_contract (fun i => 10 * i + 1) 2).2.2.1 rfl
  have h7 := (getComponent_contract (fun i => 10 * i + 1) 7).2.2.2
    (by decide) (by decide) (by decide)
  exact ⟨h2.1, h2.2, h7.1, h7.2⟩

/-- Claim C10: once the Remapper's parameter guard passes (componentX and
componentY in [0, 2]), the Channel Selector's fallback branch is
unreachable: it never logs, and every call returns one of the three pixel
components. -/
theorem remapper_guard_protects_selector (cx cy : ℤ)
    (h : ¬(cx < 0 ∨ cx > 2 ∨ cy < 0 ∨ cy > 2)) :
    getComponentLogsError cx = false ∧ getComponentLogsError cy = false ∧
    ∀ p : ℕ → ℕ,
      (getComponent p cx = p 0 ∨ getComponent p cx = p 1 ∨ getComponent p cx = p 2) ∧
      (getComponent p cy = p 0 ∨ getComponent p cy = p 1 ∨ getComponent p cy = p 2) := by
  have hcx : cx = 0 ∨ cx = 1 ∨ cx = 2 := by omega
  have hcy : cy = 0 ∨ cy = 1 ∨ cy = 2 := by omega
  refine ⟨?_, ?_, ?_⟩
  · rcases hcx with rfl | rfl | rfl <;> decide
  · rcases hcy with rfl | rfl | rfl <;> decide
  · intro p
    constructor
    · rcases hcx with rfl | rfl | rfl
      · exact Or.inl (by simp [getComponent])
      · exact Or.inr (Or.inl (by simp [getComponent]))
      · exact Or.inr (Or.inr (by simp [getComponent]))
    · rcases hcy with rfl | rfl | rfl
      · exact Or.inl (by simp [getComponent])
      · exact Or.inr (Or.inl (by simp [getComponent]))
      · exact Or.inr (Or.inr (by simp [getComponent]))

/-- Witness for `remapper_guard_protects_selector` at componentX = 2,
componentY = 1. -/
theorem remapper_guard_protects_selector_witness :
    getComponentLogsError 2 = false ∧ getComponentLogsError 1 = false :=
  ⟨(remapper_guard_protects_selector 2 1 (by decide)).1,
   (remapper_guard_protects_selector 2 1 (by decide)).2.1⟩

/-- Claim C5: any violated precondition (component selector outside [0, 2],
mismatched dimensions, or target type other than CV_8UC4) makes the Remapper
log an error and return with the caller's output untouched. -/
theorem remapper_invalid_is_noop (map target output : Img) (cx cy sx sy : ℤ)
    (h : (cx < 0 ∨ cx > 2 ∨ cy < 0 ∨ cy > 2) ∨
         (target.cols ≠ map.cols ∨ target.rows ≠ map.rows ∨ target.mtype ≠ CV_8UC4)) :
    displacementMapFilter map target cx cy sx sy output = output ∧
    displacementMapFilterLogsError map target cx cy = true := by
  by_cases h1 : cx < 0 ∨ cx > 2 ∨ cy < 0 ∨ cy > 2
  · constructor
    · unfold displacementMapFilter
      rw [if_pos h1]
    · unfold displacementMapFilterLogsError
      rw [if_pos h1]
  · have h2 := h.resolve_left h1
    constructor
    · unfold displacementMapFilter
      rw [if_neg h1, if_pos h2]
    · unfold displacementMapFilterLogsError
      rw [if_neg h1, if_pos h2]

/-- Witness for `remapper_invalid_is_noop`: componentX = 3 is rejected and
the previously filled output matrix is returned unchanged. -/
theorem remapper_invalid_is_noop_witness :
    displacementMapFilter sampleMap3 sampleTarget4 3 0 20 20 prevOutput = prevOutput ∧
    displacementMapFilterLogsError sampleMap3 sampleTarget4 3 0 = true :=
  remapper_invalid_is_noop sampleMap3 sampleTarget4 prevOutput 3 0 20 20 (Or.inl (by decide))

/-- Claim C2: with scaleX = scaleY = 0 and all preconditions met, the
Remapper is the identity: the output has the target's dimensions and agrees
with the target on every valid pixel and channel, for every map content. -/
theorem remapper_zero_scale_identity (map target output : Img) (cx cy : ℤ)
    (hcx0 : 0 ≤ cx) (hcx2 : cx ≤ 2) (hcy0 : 0 ≤ cy) (hcy2 : cy ≤ 2)
    (hw : target.cols = map.cols) (hh : target.rows = map.rows)
    (ht : target.mtype = CV_8UC4) :
    (displacementMapFilter map target cx cy 0 0 output).rows = target.rows ∧
    (displacementMapFilter map target cx cy 0 0 output).cols = target.cols ∧
    ∀ x y : ℤ, ∀ c : ℕ, 0 ≤ x → x < target.rows → 0 ≤ y → y < target.cols → c < 4 →
      (displacementMapFilter map target cx cy 0 0 output).px x y c = target.px x y c := by
  have hg1 : ¬(cx < 0 ∨ cx > 2 ∨ cy < 0 ∨ cy > 2) := by omega
  have hg2 : ¬(target.cols ≠ map.cols ∨ target.rows ≠ map.rows ∨ target.mtype ≠ CV_8UC4) := by
    push_neg
    exact ⟨hw, hh, ht⟩
  have hF : displacementMapFilter map target cx cy 0 0 output =
      { rows := target.rows
        cols := target.cols
        channels := channelsOfType target.mtype
        mtype := target.mtype
        px := fun x y c =>
          if 0 ≤ x ∧ x < target.rows ∧ 0 ≤ y ∧ y < target.cols ∧ c < 4 then
            target.px (dispDX map cx 0 target.rows x y) (dispDY map cy 0 target.cols x y) c
          else 0 } := by
    unfold displacementMapFilter
    rw [if_neg hg1, if_neg hg2]
  rw [hF]
  refine ⟨rfl, rfl, ?_⟩
  intro x y c hx0 hxr hy0 hyc hc
  have hoff : ∀ g : ℤ, dispOffset g 0 = 0 := by
    intro g
    simp [dispOffset]
  have hdx : dispDX map cx 0 target.rows x y = x := by
    rw [dispDX, hoff, add_zero]
    exact clampSeq_eq_self hx0 hxr
  have hdy : dispDY map cy 0 target.cols x y = y := by
    rw [dispDY, hoff, add_zero]
    exact clampSeq_eq_self hy0 hyc
  simp only
  rw [if_pos ⟨hx0, hxr, hy0, hyc, hc⟩, hdx, hdy]

/-- Witness for `remapper_zero_scale_identity` on concrete 4×4 images. -/
theorem remapper_zero_scale_identity_witness :
    (displacementMapFilter sampleMap3 sampleTarget4 1 2 0 0 prevOutput).px 3 1 2 =
      sampleTarget4.px 3 1 2 :=
  (remapper_zero_scale_identity sampleMap3 sampleTarget4 prevOutput 1 2
    (by decide) (by decide) (by decide) (by decide) rfl rfl rfl).2.2
    3 1 2 (by decide) (by decide) (by decide) (by decide) (by decide)

/-- Claim C8: for a 4×4 map whose Red channel is 128 everywhere and any 4×4
CV_8UC4 target, the Remapper with components (2, 2) and scales (20, 20)
returns the target unchanged, since (128 − 128) · 20 / 256 = 0 on both axes. -/
theorem remapper_red128_scale20_identity (map target output : Img)
    (hmr : map.rows = 4) (hmc : map.cols = 4)
    (htr : target.rows = 4) (htc : target.cols = 4) (ht : target.mtype = CV_8UC4)
    (hred : ∀ x y : ℤ, 0 ≤ x → x < 4 → 0 ≤ y → y < 4 → map.px x y 2 = 128) :
    (displacementMapFilter map target 2 2 20 20 output).rows = target.rows ∧
    (displacementMapFilter map target 2 2 20 20 output).cols = target.cols ∧
    ∀ x y : ℤ, ∀ c : ℕ, 0 ≤ x → x < 4 → 0 ≤ y → y < 4 → c < 4 →
      (displacementMapFilter map target 2 2 20 20 output).px x y c = target.px x y c := by
  have hg1 : ¬((2 : ℤ) < 0 ∨ (2 : ℤ) > 2 ∨ (2 : ℤ) < 0 ∨ (2 : ℤ) > 2) := by omega
  have hg2 : ¬(target.cols ≠ map.cols ∨ target.rows ≠ map.rows ∨ target.mtype ≠ CV_8UC4) := by
    push_neg
    exact ⟨by omega, by omega, ht⟩
  have hF : displacementMapFilter map target 2 2 20 20 output =
      { rows := target.rows
        cols := target.cols
        channels := channelsOfType target.mtype
        mtype := target.mtype
        px := fun x y c =>
          if 0 ≤ x ∧ x < target.rows ∧ 0 ≤ y ∧ y < target.cols ∧ c < 4 then
            target.px (dispDX map 2 20 target.rows x y) (dispDY map 2 20 target.cols x y) c
          else 0 } := by
    unfold displacementMapFilter
    rw [if_neg hg1, if_neg hg2]
  rw [hF]
  refine ⟨rfl, rfl, ?_⟩
  intro x y c hx0 hxr hy0 hyc hc
  have hcomp : getComponent (fun ch => map.px x y ch) 2 = 128 := by
    simp only [getComponent]
    norm_num
    exact hred x y hx0 hxr hy0 hyc
  have hoff : dispOffset 128 20 = 0 := by decide
  have hdx : dispDX map 2 20 target.rows x y = x := by
    rw [dispDX, hcomp]
    push_cast
    rw [hoff, add_zero]
    exact clampSeq_eq_self hx0 (by omega)
  have hdy : dispDY map 2 20 target.cols x y = y := by
    rw [dispDY, hcomp]
    push_cast
    rw [hoff, add_zero]
    exact clampSeq_eq_self hy0 (by omega)
  simp only
  rw [if_pos ⟨hx0, by omega, hy0, by omega, hc⟩, hdx, hdy]

/-- Witness for `remapper_red128_scale20_identity` on concrete 4×4 images. -/
theorem remapper_red128_scale20_identity_witness :
    (displacementMapFilter sampleMapRed128 sampleTarget4 2 2 20 20 prevOutput).px 0 3 1 =
      sampleTarget4.px 0 3 1 :=
  (remapper_red128_scale20_identity sampleMapRed128 sampleTarget4 prevOutput
    rfl rfl rfl rfl rfl (fun _ _ _ _ _ _ => rfl)).2.2
    0 3 1 (by decide) (by decide) (by decide) (by decide) (by decide)

/-- Claim C1 fails on the code: the upper clamp at main.cpp:111/115 uses the
dimension itself, not dimension − 1.  At output pixel (3, 0) of a 4×4 image
whose map component is 255 with scale 20, both source indices are clamped to
4 = rows = cols, one past the last valid index 3, and the Remapper then
reads the target at the out-of-range coordinate (4, 4) (marker value 7,
while every in-range pixel of the target holds 1). -/
theorem remapper_clamp_out_of_range :
    dispDX mapBadClamp 2 20 4 3 0 = 4 ∧
    ¬(dispDX mapBadClamp 2 20 4 3 0 ≤ 4 - 1) ∧
    dispDY mapBadClamp 2 20 4 3 0 = 4 ∧
    (displacementMapFilter mapBadClamp targetOOB 2 2 20 20 emptyImg).px 3 0 0 = 7 := by
  refine ⟨by decide, by decide, by decide, ?_⟩
  decide

/-- Pointwise reading of `writePixel`: channel `c'` of coordinate (y', x')
is the blended value exactly when the opacity is positive and (y', x', c')
is one of the written channels; otherwise the buffer is unchanged. -/
lemma writePixel_apply (bg fg : Img) (loc : ℤ × ℤ) (out : PxFun) (y x y' x' : ℤ) (c' : ℕ) :
    writePixel bg fg loc out y x y' x' c' =
    if 0 < opac fg loc y x ∧ y' = y ∧ x' = x ∧ c' < bg.channels
    then blendAt bg fg loc y x c'
    else out y' x' c' := by
  unfold writePixel
  by_cases hop : 0 < opac fg loc y x
  · rw [if_pos hop]
    by_cases h : y' = y ∧ x' = x ∧ c' < bg.channels
    · rw [if_pos h, if_pos ⟨hop, h⟩]
    · rw [if_neg h, if_neg (fun hh => h ⟨hh.2.1, hh.2.2.1, hh.2.2.2⟩)]
  · rw [if_neg hop, if_neg (fun hh => hop hh.1)]

/-- Pointwise reading of the column loop started at `x0`: it blends exactly
the channels of the pixels of row `y` from column `max x0 _` on, up to both
the background's column bound and the foreground's column bound (the
`break`), and leaves every other coordinate unchanged. -/
lemma overlayCols_px (bg fg : Img) (loc : ℤ × ℤ) (y : ℤ) :
    ∀ (n : ℕ) (x0 : ℤ), (bg.cols - x0).toNat ≤ n → ∀ (out : PxFun) (y' x' : ℤ) (c' : ℕ),
      overlayCols bg fg loc y x0 out y' x' c' =
      if y' = y ∧ x0 ≤ x' ∧ x' < bg.cols ∧ x' - loc.1 < fg.cols ∧
         0 < opac fg loc y x' ∧ c' < bg.channels
      then blendAt bg fg loc y x' c'
      else out y' x' c' := by
  intro n
  induction n with
  | zero =>
    intro x0 hn out y' x' c'
    rw [overlayCols, if_neg (show ¬x0 < bg.cols by omega)]
    rw [if_neg (by rintro ⟨-, h1, h2, -⟩; omega)]
  | succ n ih =>
    intro x0 hn out y' x' c'
    rw [overlayCols]
    by_cases h1 : x0 < bg.cols
    · rw [if_pos h1]
      by_cases h2 : fg.cols ≤ x0 - loc.1
      · rw [if_pos h2]
        rw [if_neg (by rintro ⟨-, hx, -, hfx, -⟩; omega)]
      · rw [if_neg h2]
        rw [ih (x0 + 1) (by omega) (writePixel bg fg loc out y x0) y' x' c']
        by_cases hC1 : y' = y ∧ x0 + 1 ≤ x' ∧ x' < bg.cols ∧ x' - loc.1 < fg.cols ∧
            0 < opac fg loc y x' ∧ c' < bg.channels
        · obtain ⟨ha, hb, hc, hd, he, hf⟩ := hC1
          rw [if_pos ⟨ha, hb, hc, hd, he, hf⟩, if_pos ⟨ha, by omega, hc, hd, he, hf⟩]
        · rw [if_neg hC1, writePixel_apply]
          by_cases hC0 : y' = y ∧ x0 ≤ x' ∧ x' < bg.cols ∧ x' - loc.1 < fg.cols ∧
              0 < opac fg loc y x' ∧ c' < bg.channels
          · obtain ⟨ha, hb, hc, hd, he, hf⟩ := hC0
            have hx'eq : x' = x0 := by
              by_contra hne
              exact hC1 ⟨ha, by omega, hc, hd, he, hf⟩
            subst hx'eq
            rw [if_pos ⟨he, ha, rfl, hf⟩, if_pos ⟨ha, hb, hc, hd, he, hf⟩]
          · rw [if_neg hC0]
            rw [if_neg (by
              rintro ⟨hop, hy, hx, hc⟩
              subst hx
              exact hC0 ⟨hy, le_refl _, h1, by omega, hop, hc⟩)]
    · rw [if_neg h1]
      rw [if_neg (by rintro ⟨-, hx, hc, -⟩; omega)]

/-- Pointwise reading of the row loop started at `y0`: it blends exactly
the channels of the pixels whose row lies in `[y0, background.rows)` and
below the foreground's row bound (the outer `break`), and whose column lies
in `[max location.x 0, background.cols)` and below the foreground's column
bound (the inner `break`); every other coordinate is unchanged. -/
lemma overlayRows_px (bg fg : Img) (loc : ℤ × ℤ) :
    ∀ (n : ℕ) (y0 : ℤ), (bg.rows - y0).toNat ≤ n → ∀ (out : PxFun) (y' x' : ℤ) (c' : ℕ),
      overlayRows bg fg loc y0 out y' x' c' =
      if y0 ≤ y' ∧ y' < bg.rows ∧ y' - loc.2 < fg.rows ∧
         max loc.1 0 ≤ x' ∧ x' < bg.cols ∧ x' - loc.1 < fg.cols ∧
         0 < opac fg loc y' x' ∧ c' < bg.channels
      then blendAt bg fg loc y' x' c'
      else out y' x' c' := by
  intro n
  induction n with
  | zero =>
    intro y0 hn out y' x' c'
    rw [overlayRows, if_neg (show ¬y0 < bg.rows by omega)]
    rw [if_neg (by rintro ⟨h1, h2, -⟩; omega)]
  | succ n ih =>
    intro y0 hn out y' x' c'
    rw [overlayRows]
    by_cases h1 : y0 < bg.rows
    · rw [if_pos h1]
      by_cases h2 : fg.rows ≤ y0 - loc.2
      · rw [if_pos h2]
        rw [if_neg (by rintro ⟨hy, -, hfy, -⟩; omega)]
      · rw [if_neg h2]
        rw [ih (y0 + 1) (by omega) (overlayCols bg fg loc y0 (max loc.1 0) out) y' x' c']
        by_cases hC1 : y0 + 1 ≤ y' ∧ y' < bg.rows ∧ y' - loc.2 < fg.rows ∧
            max loc.1 0 ≤ x' ∧ x' < bg.cols ∧ x' - loc.1 < fg.cols ∧
            0 < opac fg loc y' x' ∧ c' < bg.channels
        · obtain ⟨ha, hb, hc, hd, he, hf, hg, hh⟩ := hC1
          rw [if_pos ⟨ha, hb, hc, hd, he, hf, hg, hh⟩,
            if_pos ⟨by omega, hb, hc, hd, he, hf, hg, hh⟩]
        · rw [if_neg hC1,
            overlayCols_px bg fg loc y0 (bg.cols - max loc.1 0).toNat (max loc.1 0)
              (le_refl _) out y' x' c']
          by_cases hC0 : y0 ≤ y' ∧ y' < bg.rows ∧ y' - loc.2 < fg.rows ∧
              max loc.1 0 ≤ x' ∧ x' < bg.cols ∧ x' - loc.1 < fg.cols ∧
              0 < opac fg loc y' x' ∧ c' < bg.channels
          · obtain ⟨ha, hb, hc, hd, he, hf, hg, hh⟩ := hC0
            have hy'eq : y' = y0 := by
              by_contra hne
              exact hC1 ⟨by omega, hb, hc, hd, he, hf, hg, hh⟩
            subst hy'eq
            rw [if_pos ⟨rfl, hd, he, hf, hg, hh⟩, if_pos ⟨ha, hb, hc, hd, he, hf, hg, hh⟩]
          · rw [if_neg hC0]
            rw [if_neg (by
              rintro ⟨hy, hd, he, hf, hg, hh⟩
              subst hy
              exact hC0 ⟨le_refl _, h1, by omega, hd, he, hf, hg, hh⟩)]
    · rw [if_neg h1]
      rw [if_neg (by rintro ⟨hy, hb, -⟩; omega)]

/-- Blending with opacity exactly 1 returns the foreground value. -/
lemma blendPx_one (b f : ℕ) : blendPx b f 1 = f := by
  simp [blendPx]

/-- Claim C7: the Compositor with its two `break`-based early exits computes
exactly the same image as the full-bounds scan over all background
coordinates with a per-pixel bounds check on the foreground coordinate. -/
theorem overlay_early_exit_equiv (bg fg : Img) (loc : ℤ × ℤ) :
    overlayImage bg fg loc = overlayImageFull bg fg loc := by
  have hpx : overlayRows bg fg loc (max loc.2 0) bg.px = overlayFullPx bg fg loc := by
    funext y x c
    rw [overlayRows_px bg fg loc (bg.rows - max loc.2 0).toNat (max loc.2 0)
      (le_refl _) bg.px y x c]
    unfold overlayFullPx
    have hiff : (max loc.2 0 ≤ y ∧ y < bg.rows ∧ y - loc.2 < fg.rows ∧
        max loc.1 0 ≤ x ∧ x < bg.cols ∧ x - loc.1 < fg.cols ∧
        0 < opac fg loc y x ∧ c < bg.channels) ↔
        (0 ≤ y ∧ y < bg.rows ∧ 0 ≤ x ∧ x < bg.cols ∧
        0 ≤ y - loc.2 ∧ y - loc.2 < fg.rows ∧ 0 ≤ x - loc.1 ∧ x - loc.1 < fg.cols ∧
        0 < opac fg loc y x ∧ c < bg.channels) := by
      constructor
      · rintro ⟨h1, h2, h3, h4, h5, h6, h7, h8⟩
        exact ⟨by omega, h2, by omega, h5, by omega, h3, by omega, h6, h7, h8⟩
      · rintro ⟨h1, h2, h3, h4, h5, h6, h7, h8, h9, h10⟩
        exact ⟨by omega, h2, h6, by omega, h4, h8, h9, h10⟩
    rw [if_congr hiff rfl rfl]
  unfold overlayImage overlayImageFull
  rw [hpx]

/-- Claim C3: over an opaque (3-channel) background, a foreground whose
alpha is 255 on all its pixels, composited at offset (0, 0) with its bounds
inside the background's, yields the foreground's color values on the
overlap and the background elsewhere. -/
theorem compositor_opaque_fg (bg fg : Img) (hch : bg.channels = 3)
    (_hrows : fg.rows ≤ bg.rows) (_hcols : fg.cols ≤ bg.cols)
    (halpha : ∀ fY fX : ℤ, 0 ≤ fY → fY < fg.rows → 0 ≤ fX → fX < fg.cols →
      fg.px fY fX 3 = 255) :
    ∀ y x : ℤ, ∀ c : ℕ, 0 ≤ y → y < bg.rows → 0 ≤ x → x < bg.cols → c < 3 →
      (overlayImage bg fg (0, 0)).px y x c =
        if y < fg.rows ∧ x < fg.cols then fg.px y x c else bg.px y x c := by
  intro y x c hy0 hyr hx0 hxc hc
  have hpx : (overlayImage bg fg (0, 0)).px = overlayRows bg fg (0, 0) (max 0 0) bg.px := rfl
  rw [hpx, overlayRows_px bg fg (0, 0) (bg.rows - max (0 : ℤ) 0).toNat (max 0 0)
    (le_refl _) bg.px y x c]
  by_cases hov : y < fg.rows ∧ x < fg.cols
  · obtain ⟨hfy, hfx⟩ := hov
    have hop : opac fg (0, 0) y x = 1 := by
      unfold opac
      simp only
      rw [sub_zero, sub_zero, halpha y x hy0 hfy hx0 hfx]
      norm_num
    rw [if_pos ⟨by omega, hyr, by omega, by omega, hxc, by omega, by rw [hop]; norm_num,
      by omega⟩]
    rw [if_pos ⟨hfy, hfx⟩]
    unfold blendAt
    rw [hop, blendPx_one]
    simp only
    rw [sub_zero, sub_zero]
  · rw [if_neg (by
      rintro ⟨-, -, h3, -, -, h6, -, -⟩
      exact hov ⟨by omega, by omega⟩)]
    rw [if_neg hov]

/-- Witness for `compositor_opaque_fg` on concrete images: inside the
overlap the foreground's color is taken; outside, the background's. -/
theorem compositor_opaque_fg_witness :
    ((overlayImage bgSample fgOpaque (0, 0)).px 0 0 0 =
      if (0 : ℤ) < fgOpaque.rows ∧ (0 : ℤ) < fgOpaque.cols then fgOpaque.px 0 0 0
      else bgSample.px 0 0 0) ∧
    ((overlayImage bgSample fgOpaque (0, 0)).px 1 1 2 =
      if (1 : ℤ) < fgOpaque.rows ∧ (1 : ℤ) < fgOpaque.cols then fgOpaque.px 1 1 2
      else bgSample.px 1 1 2) :=
  ⟨compositor_opaque_fg bgSample fgOpaque rfl (by decide) (by decide)
      (fun _ _ _ _ _ _ => rfl) 0 0 0 (by decide) (by decide) (by decide) (by decide)
      (by decide),
   compositor_opaque_fg bgSample fgOpaque rfl (by decide) (by decide)
      (fun _ _ _ _ _ _ => rfl) 1 1 2 (by decide) (by decide) (by decide) (by decide)
      (by decide)⟩

/-- Claim C4: a foreground whose alpha is 0 on all its pixels leaves the
background untouched at every coordinate, for any offset. -/
theorem compositor_transparent_fg (bg fg : Img) (loc : ℤ × ℤ)
    (halpha : ∀ fY fX : ℤ, 0 ≤ fY → fY < fg.rows → 0 ≤ fX → fX < fg.cols →
      fg.px fY fX 3 = 0) :
    (overlayImage bg fg loc).rows = bg.rows ∧
    (overlayImage bg fg loc).cols = bg.cols ∧
    (overlayImage bg fg loc).channels = bg.channels ∧
    ∀ y x : ℤ, ∀ c : ℕ, (overlayImage bg fg loc).px y x c = bg.px y x c := by
  refine ⟨rfl, rfl, rfl, ?_⟩
  intro y x c
  have hpx : (overlayImage bg fg loc).px = overlayRows bg fg loc (max loc.2 0) bg.px := rfl
  rw [hpx, overlayRows_px bg fg loc (bg.rows - max loc.2 0).toNat (max loc.2 0)
    (le_refl _) bg.px y x c]
  rw [if_neg]
  rintro ⟨h1, h2, h3, h4, h5, h6, h7, h8⟩
  have ha := halpha (y - loc.2) (x - loc.1) (by omega) h3 (by omega) h6
  unfold opac at h7
  rw [ha] at h7
  norm_num at h7

/-- Witness for `compositor_transparent_fg` on concrete images, with a
non-zero offset. -/
theorem compositor_transparent_fg_witness :
    (overlayImage bgSample fgTransparent (1, -3)).px 0 1 2 = bgSample.px 0 1 2 :=
  (compositor_transparent_fg bgSample fgTransparent (1, -3)
    (fun _ _ _ _ _ _ => rfl)).2.2.2 0 1 2

end CvDisplacement
